import Mathlib

/-!
Shallow embedding of the scoring/ranking core of `fetch_papers.py`
(the impact-scoring and venue-detection pipeline of the ai-papers-digest
repository), together with theorems settling the frozen claims about it.

Modelling conventions:
* Python dictionaries holding a paper become the `Paper` structure; fields
  that the module reads with `.get(key, default)` carry the same defaults.
* Machine floats: every summand of `calculate_impact_score` is an integer
  (2/5/10 times integer counts, plus integer bonuses), so the Python float
  score is represented exactly by `Int`.
* The parse of `published_date` and the day arithmetic performed with the
  `datetime` library are abstracted into the field `days_old : Option Int`:
  `none` models an unparsable timestamp (the `except: pass` path), `some d`
  models a successful parse whose age relative to the current time in the
  paper's own timezone is `d` days.
* Network calls are oracle parameters: the Hugging Face feed and the arXiv
  search results are `Option (List Paper)` (`none` = the adapter's
  exception path), the Semantic Scholar HTTP GET is a function from the
  requested URL to `Option ScholarResponse` (`none` = a raised exception).
* Python's `str.lower`, `str.split()`, substring `in`, `str.replace` and
  `str.strip` are modelled by `pyLower`, `pySplit`, `substrB`,
  `pyRemoveAll` and `pyStrip`, structurally over character lists so that
  every definition evaluates inside the kernel.
-/

/-- The ten keys of the `TOP_TIER_VENUES` dictionary, as an enumeration. -/
inductive Venue where
  | neurips | icml | iclr | aamas | aaai | ijcai | cvpr | acl | emnlp | corl
deriving DecidableEq, Repr

/-- The value part of a `TOP_TIER_VENUES` entry. -/
structure VenueInfo where
  name : String
  bonus : Int
  focus : String
deriving DecidableEq, Repr

/-- The static venue table of `fetch_papers.py` (`TOP_TIER_VENUES`). -/
def TOP_TIER_VENUES : Venue → VenueInfo
  | .neurips => ⟨"NeurIPS", 50, "ML foundations, RL, agents"⟩
  | .icml => ⟨"ICML", 50, "Core ML theory"⟩
  | .iclr => ⟨"ICLR", 50, "Deep learning"⟩
  | .aamas => ⟨"AAMAS", 60, "Autonomous agents (most relevant!)"⟩
  | .aaai => ⟨"AAAI", 45, "Broad AI"⟩
  | .ijcai => ⟨"IJCAI", 45, "Broad AI"⟩
  | .cvpr => ⟨"CVPR", 40, "Computer vision"⟩
  | .acl => ⟨"ACL", 40, "NLP/Language agents"⟩
  | .emnlp => ⟨"EMNLP", 40, "NLP"⟩
  | .corl => ⟨"CoRL", 45, "Robot learning"⟩

/-- Insertion order of the `TOP_TIER_VENUES` dictionary (Python dictionaries
iterate in insertion order). -/
def VENUE_ORDER : List Venue :=
  [.neurips, .icml, .iclr, .aamas, .aaai, .ijcai, .cvpr, .acl, .emnlp, .corl]

/-- The `ARXIV_CATEGORIES` list of `fetch_papers.py`. -/
def ARXIV_CATEGORIES : List String :=
  ["cs.AI", "cs.MA", "cs.LG", "cs.RO", "cs.CL"]

/-- A paper record as built by the source adapters.  Field defaults mirror
the values substituted by `.get(key, default)` in the module. -/
structure Paper where
  title : String := "Untitled"
  authors : String := ""
  abstract : String := "No abstract available"
  arxiv_id : String := ""
  pdf_url : String := ""
  days_old : Option Int := none
  upvotes : Int := 0
  citations : Int := 0
  influential_citations : Int := 0
  source : String := ""
  venue : Option Venue := none
  venue_bonus : Option Int := none
  impact_score : Option Int := none
deriving DecidableEq, Repr

/-- Python's substring test `needle in hay` on character lists. -/
def containsSub (needle : List Char) : List Char → Bool
  | [] => needle.isEmpty
  | c :: rest => needle.isPrefixOf (c :: rest) || containsSub needle rest

/-- Python's `needle in hay` for strings. -/
def substrB (needle hay : String) : Bool :=
  containsSub needle.data hay.data

/-- Python's `s.lower()`, charwise (the module's text is basic latin, where
`Char.toLower` agrees with Python). -/
def pyLower (s : String) : String :=
  ⟨s.data.map Char.toLower⟩

/-- Worker for `pySplit`: the accumulator holds the characters of the
current word in reverse. -/
def pySplitAux : List Char → List Char → List String
  | [], acc => if acc.isEmpty then [] else [⟨acc.reverse⟩]
  | c :: rest, acc =>
    if c.isWhitespace then
      if acc.isEmpty then pySplitAux rest []
      else ⟨acc.reverse⟩ :: pySplitAux rest []
    else pySplitAux rest (c :: acc)

/-- Python's `s.split()` (split on whitespace runs, dropping empty parts). -/
def pySplit (s : String) : List String :=
  pySplitAux s.data []

/-- Python's `s.strip()` (drop leading and trailing whitespace). -/
def pyStrip (s : String) : String :=
  ⟨((s.data.dropWhile Char.isWhitespace).reverse.dropWhile Char.isWhitespace).reverse⟩

/-- Truthiness of the optional `topic` argument (`if topic:` in Python:
`None` and the empty string are falsy). -/
def topicTruthy (topic : Option String) : Bool :=
  topic.getD "" ≠ ""

/-- `searchable_text` as built by `detect_paper_venue` and
`filter_papers_by_topic`: lowercased title, a space, lowercased abstract. -/
def searchable_text (p : Paper) : String :=
  pyLower p.title ++ " " ++ pyLower p.abstract

/-- Does the display name of venue `v` occur in the searchable text of `p`?
(the loop body of `detect_paper_venue`). -/
def venue_matches (v : Venue) (p : Paper) : Bool :=
  substrB (pyLower (TOP_TIER_VENUES v).name) (searchable_text p)

/-- `detect_paper_venue`: first venue (in table-iteration order) whose
lowercased display name occurs in lowercased title+abstract. -/
def detect_paper_venue (p : Paper) : Option Venue :=
  VENUE_ORDER.find? (fun v => venue_matches v p)

/-- `get_daily_arxiv_category`, as a function of the day-of-year read from
the clock: `ARXIV_CATEGORIES[day_of_year % len(ARXIV_CATEGORIES)]`. -/
def get_daily_arxiv_category (day_of_year : Nat) : String :=
  ARXIV_CATEGORIES.getD (day_of_year % ARXIV_CATEGORIES.length) ""

/-- `filter_papers_by_topic`: translated loop — start from an empty list and
append every paper one of whose topic keywords occurs in its searchable
text. -/
def filter_papers_by_topic (papers : List Paper) (topic : String) : List Paper :=
  if topic = "" then papers
  else
    let topic_keywords := pySplit (pyLower topic)
    papers.foldl
      (fun filtered p =>
        if topic_keywords.any (fun kw => substrB kw (searchable_text p)) then
          filtered ++ [p]
        else filtered)
      []

/-- `calculate_impact_score`.  Returns the score together with the paper as
left behind by the call: the Python function mutates its argument, writing
`venue_bonus` when the paper's venue is a key of the venue table. -/
def calculate_impact_score (p : Paper) (topic : Option String) : Int × Paper :=
  let score : Int := 0
  let score := score + p.upvotes * 2
  let score := score + p.citations * 5
  let score := score + p.influential_citations * 10
  let score := score +
    (match p.days_old with
     | some days => if days ≤ 30 then 20 else if days ≤ 90 then 10 else 0
     | none => 0)
  let score :=
    if topicTruthy topic then
      let title := pyLower p.title
      let keywords := pySplit (pyLower (topic.getD ""))
      if keywords.any (fun kw => substrB kw title) then score + 30 else score
    else score
  match p.venue with
  | some v =>
      let vb := (TOP_TIER_VENUES v).bonus
      (score + vb, { p with venue_bonus := some vb })
  | none => (score, p)

/-- Python's `s.replace(pat, '')` on character lists: scan left to right,
delete each non-overlapping occurrence of the (non-empty) pattern.  The
fuel argument is the scan budget; callers supply the list length. -/
def removeAllAux (pat : List Char) : Nat → List Char → List Char
  | _, [] => []
  | 0, s => s
  | fuel + 1, c :: rest =>
    if pat.isPrefixOf (c :: rest) ∧ pat ≠ [] then
      removeAllAux pat fuel (rest.drop (pat.length - 1))
    else
      c :: removeAllAux pat fuel rest

/-- Python's `s.replace(pat, '')` for a non-empty pattern. -/
def pyRemoveAll (pat s : String) : String :=
  ⟨removeAllAux pat.data s.data.length s.data⟩

/-- The identifier normalization of `get_semantic_scholar_data`:
`arxiv_id.replace('arXiv:', '').replace('v1', '').replace('v2', '').replace('v3', '')`. -/
def cleanArxivId (arxiv_id : String) : String :=
  pyRemoveAll "v3" (pyRemoveAll "v2" (pyRemoveAll "v1" (pyRemoveAll "arXiv:" arxiv_id)))

/-- Base of the Semantic Scholar request URL built by
`get_semantic_scholar_data`; the cleaned identifier is appended to it. -/
def SEMANTIC_SCHOLAR_URL_BASE : String :=
  "https://api.semanticscholar.org/graph/v1/paper/arXiv:"

/-- Abstraction of the Semantic Scholar HTTP response: status code and the
two optional counts read from the JSON body. -/
structure ScholarResponse where
  status_code : Nat
  citationCount : Option Int
  influentialCitationCount : Option Int
deriving DecidableEq, Repr

/-- The record returned by `get_semantic_scholar_data`. -/
structure ScholarData where
  citations : Int
  influential_citations : Int
deriving DecidableEq, Repr

/-- `get_semantic_scholar_data` over an HTTP oracle mapping the requested
URL to `none` (a raised exception: timeout, connection error, bad JSON) or
to a response.  Any non-200 status and any exception yield zero counts. -/
def get_semantic_scholar_data (http : String → Option ScholarResponse)
    (arxiv_id : String) : ScholarData :=
  let clean_id := cleanArxivId arxiv_id
  match http (SEMANTIC_SCHOLAR_URL_BASE ++ clean_id) with
  | some r =>
      if r.status_code = 200 then
        ⟨r.citationCount.getD 0, r.influentialCitationCount.getD 0⟩
      else ⟨0, 0⟩
  | none => ⟨0, 0⟩

/-- The body of the enrichment loop: overwrite the citation fields of one
paper from Semantic Scholar data (performed only when `arxiv_id` is
truthy). -/
def enrichOne (http : String → Option ScholarResponse) (p : Paper) : Paper :=
  let scholar_data := get_semantic_scholar_data http p.arxiv_id
  { p with citations := scholar_data.citations,
           influential_citations := scholar_data.influential_citations }

/-- The enrichment loop `for paper in filtered_papers[:20]` of
`fetch_high_impact_papers`, with the running position carried explicitly:
only the papers at positions `< 20` with a non-empty `arxiv_id` are
enriched, every other paper passes through unchanged. -/
def enrichFrom (http : String → Option ScholarResponse) : Nat → List Paper → List Paper
  | _, [] => []
  | i, p :: rest =>
    (if i < 20 ∧ p.arxiv_id ≠ "" then enrichOne http p else p) :: enrichFrom http (i + 1) rest

/-- One step of the venue-detection pass of `fetch_high_impact_papers`:
detect only if no venue is recorded yet, and assign only on a match. -/
def detect_venue_pass (p : Paper) : Paper :=
  if p.venue.isNone then
    match detect_paper_venue p with
    | some v => { p with venue := some v }
    | none => p
  else p

/-- The venue-detection loop over all filtered papers. -/
def detect_venues (papers : List Paper) : List Paper :=
  papers.map detect_venue_pass

/-- The scoring loop: `paper['impact_score'] = calculate_impact_score(paper, topic)`
(the call itself may also write `venue_bonus` onto the paper). -/
def score_papers (papers : List Paper) (topic : Option String) : List Paper :=
  papers.map (fun p =>
    let r := calculate_impact_score p topic
    { r.2 with impact_score := some r.1 })

/-- The sort key `lambda p: p['impact_score']` (present on every scored
paper; absent reads as 0). -/
def score_key (p : Paper) : Int :=
  p.impact_score.getD 0

/-- The comparison realized by `sorted(..., key=lambda p: p['impact_score'],
reverse=True)`: the left paper may stay before the right one iff its key is
at least the right one's. -/
def impact_le (a b : Paper) : Bool :=
  decide (score_key b ≤ score_key a)

/-- `sorted(filtered_papers, key=..., reverse=True)`: Python's sort is
stable also with `reverse=True`, which a stable merge sort under
`impact_le` reproduces exactly. -/
def sort_by_impact (papers : List Paper) : List Paper :=
  papers.mergeSort impact_le

/-- `fetch_huggingface_papers` over the feed oracle: on success the first
`num_papers` entries of the trending feed in API order, on an exception the
empty list. -/
def fetch_huggingface_papers (feed : Option (List Paper)) (num_papers : Nat) : List Paper :=
  match feed with
  | some papers_data => papers_data.take num_papers
  | none => []

/-- `fetch_arxiv_papers` over the search oracle: the stream of results of
the query (built from topic and category, both living in the oracle) is
truncated at `max_results = num_papers * 2`, each result is venue-tagged at
construction, and the first `num_papers` tagged records are returned; an
exception yields the empty list. -/
def arxiv_tag (p : Paper) : Paper :=
  match detect_paper_venue p with
  | some v => { p with venue := some v,
                       source := (TOP_TIER_VENUES v).name ++ " (arXiv)" }
  | none => p

/-- See `arxiv_tag`. -/
def fetch_arxiv_papers (search : Option (List Paper)) (num_papers : Nat) : List Paper :=
  match search with
  | some stream => (((stream.take (num_papers * 2)).map arxiv_tag).take num_papers)
  | none => []

/-- The merge/filter/enrich/detect/score/sort/truncate pipeline of
`fetch_high_impact_papers`, starting from the two adapters' outputs. -/
def fetch_high_impact_papers_core (http : String → Option ScholarResponse)
    (hf_papers arxiv_papers : List Paper) (topic : Option String)
    (num_papers : Nat) : List Paper :=
  let all_papers := hf_papers ++ arxiv_papers
  let filtered_papers :=
    if topicTruthy topic then filter_papers_by_topic all_papers (topic.getD "")
    else all_papers
  let enriched := enrichFrom http 0 filtered_papers
  let venued := detect_venues enriched
  let scored := score_papers venued topic
  (sort_by_impact scored).take num_papers

/-- The pipeline of `fetch_high_impact_papers` up to (and excluding) the
final sort and truncation: merged candidates, topic-filtered, enriched,
venue-detected, scored.  `fetch_high_impact_papers_core` is definitionally
the sort of this list truncated to `num_papers`. -/
def pre_rank (http : String → Option ScholarResponse)
    (hf_papers arxiv_papers : List Paper) (topic : Option String) : List Paper :=
  let all_papers := hf_papers ++ arxiv_papers
  let filtered_papers :=
    if topicTruthy topic then filter_papers_by_topic all_papers (topic.getD "")
    else all_papers
  score_papers (detect_venues (enrichFrom http 0 filtered_papers)) topic

/-- `fetch_high_impact_papers`: fetch `num_papers * 3` trending papers when
a topic is configured (`num_papers` otherwise), fetch `num_papers * 2`
results from the rotating arXiv search, then run the core pipeline. -/
def fetch_high_impact_papers (http : String → Option ScholarResponse)
    (feed search : Option (List Paper)) (topic : Option String)
    (num_papers : Nat) : List Paper :=
  let fetch_count := if topicTruthy topic then num_papers * 3 else num_papers
  let hf_papers := fetch_huggingface_papers feed fetch_count
  let arxiv_papers := fetch_arxiv_papers search (num_papers * 2)
  fetch_high_impact_papers_core http hf_papers arxiv_papers topic num_papers

/-- `get_papers`: run the pipeline; if it produced nothing, fall back to the
trending feed when the topic is falsy or whitespace-only, and to a fresh
topic search on arXiv otherwise. -/
def get_papers (http : String → Option ScholarResponse)
    (feed search : Option (List Paper)) (topic : Option String)
    (num_papers : Nat) : List Paper :=
  let papers := fetch_high_impact_papers http feed search topic num_papers
  if papers ≠ [] then papers
  else if ¬ topicTruthy topic = true ∨ pyStrip (topic.getD "") = "" then
    fetch_huggingface_papers feed num_papers
  else
    fetch_arxiv_papers search num_papers

/-- HTTP oracle on which every request raises (all enrichment degrades to
zero counts); used to instantiate theorems on concrete runs. -/
def httpNone : String → Option ScholarResponse := fun _ => none

/-- A concrete record used to instantiate theorems: only a title, all other
fields at their adapter defaults. -/
def pHello : Paper := { title := "hello" }

/-- The worked example of the spec: `upvotes=10`, no citations, published 5
days ago, no venue. -/
def examplePaper : Paper := { upvotes := 10, days_old := some 5 }

/-- A concrete record whose title matches both keywords of the topic
`"agentic ai"`. -/
def pAgentic : Paper := { title := "Agentic AI Systems" }

/-- A concrete record whose venue is already assigned. -/
def pVenued : Paper := { title := "parsing", venue := some Venue.acl }

/-- A concrete record whose title mentions the first venue of the table. -/
def pNeurips : Paper := { title := "Accepted at NeurIPS 2025" }

/-- Erase the fields the pipeline computes (citations, venue, bonuses,
score), leaving the provenance of a record: used to state that the
pipeline only selects and reorders records coming from the merged input. -/
def strip_computed (p : Paper) : Paper :=
  { p with citations := 0, influential_citations := 0, venue := none,
           venue_bonus := none, impact_score := none }

/-- Modelled from the spec's words (for comparison with `cleanArxivId`):
strip a version suffix `v1`/`v2`/`v3` only at the end of the identifier. -/
def strip_version_suffix (s : String) : String :=
  if ["v1", "v2", "v3"].any (fun t => t.data.isSuffixOf s.data) then
    ⟨s.data.take (s.data.length - 2)⟩
  else s

/-- Modelled from the spec's words (for comparison with `cleanArxivId`):
remove the namespace marker only as a leading `"arXiv:"`, then strip a
trailing version suffix. -/
def spec_clean_id (s : String) : String :=
  if "arXiv:".data.isPrefixOf s.data then strip_version_suffix ⟨s.data.drop 6⟩
  else strip_version_suffix s

/- ------------------------------------------------------------------ -/
/- Helper lemmas (shared; none of them is a claim theorem).           -/
/- ------------------------------------------------------------------ -/

/-- The append-accumulating loop of `filter_papers_by_topic` is `filter`. -/
theorem foldl_append_filter {α : Type} (q : α → Bool) (l acc : List α) :
    l.foldl (fun f p => if q p then f ++ [p] else f) acc = acc ++ l.filter q := by
  induction l generalizing acc with
  | nil => simp
  | cons p rest ih =>
    cases hq : q p <;> simp [List.foldl_cons, hq, ih]

/-- The enrichment loop keeps the list length. -/
theorem enrichFrom_length (http : String → Option ScholarResponse) :
    ∀ (start : Nat) (papers : List Paper),
      (enrichFrom http start papers).length = papers.length := by
  intro start papers
  induction papers generalizing start with
  | nil => simp [enrichFrom]
  | cons p rest ih => simp [enrichFrom, ih]

/-- Pointwise description of the enrichment loop: position `start + j`
decides whether the paper at index `j` is enriched. -/
theorem enrichFrom_getElem? (http : String → Option ScholarResponse)
    (start : Nat) (papers : List Paper) (j : Nat) :
    (enrichFrom http start papers)[j]? =
      (papers[j]?).map
        (fun p => if start + j < 20 ∧ p.arxiv_id ≠ "" then enrichOne http p else p) := by
  induction papers generalizing start j with
  | nil => simp [enrichFrom]
  | cons p rest ih =>
    cases j with
    | zero => simp [enrichFrom]
    | succ j' =>
      simp only [enrichFrom, List.getElem?_cons_succ]
      rw [ih (start + 1) j']
      have h : start + 1 + j' = start + (j' + 1) := by omega
      rw [h]

/-- `find?` returns the first element satisfying the predicate: it
satisfies it, and every element strictly before it fails it. -/
theorem find?_first_getElem? {α : Type} (q : α → Bool) (l : List α) (a : α)
    (h : l.find? q = some a) :
    q a = true ∧ ∃ k : Nat, l[k]? = some a ∧
      ∀ j : Nat, j < k → ∀ w : α, l[j]? = some w → q w = false := by
  induction l with
  | nil => simp [List.find?] at h
  | cons x rest ih =>
    cases hx : q x with
    | true =>
      rw [List.find?_cons_of_pos _ hx] at h
      obtain rfl : x = a := by simpa using h
      exact ⟨hx, 0, by simp, by omega⟩
    | false =>
      rw [List.find?_cons_of_neg _ (by simp [hx])] at h
      obtain ⟨hq, k, hk, hbefore⟩ := ih h
      refine ⟨hq, k + 1, by simpa using hk, ?_⟩
      intro j hj w hw
      cases j with
      | zero =>
        obtain rfl : x = w := by simpa using hw
        exact hx
      | succ j' =>
        exact hbefore j' (by omega) w (by simpa using hw)

/-- Every venue key occurs in the iteration order of the table. -/
theorem mem_VENUE_ORDER (v : Venue) : v ∈ VENUE_ORDER := by
  cases v <;> decide

/-- `impact_le` is transitive. -/
theorem impact_le_trans (a b c : Paper) :
    impact_le a b → impact_le b c → impact_le a c := by
  simp only [impact_le, decide_eq_true_eq]
  omega

/-- `impact_le` is total. -/
theorem impact_le_total (a b : Paper) : impact_le a b || impact_le b a := by
  simp only [impact_le, Bool.or_eq_true, decide_eq_true_eq]
  omega

/-- Stability of the merge sort under `impact_le`: restricting the sorted
list to any class of pairwise-tied elements reproduces the restriction of
the input, in input order. -/
theorem mergeSort_stable_filter (q : Paper → Bool)
    (hq : ∀ a b : Paper, q a = true → q b = true → impact_le a b = true)
    (l : List Paper) :
    (l.mergeSort impact_le).filter q = l.filter q := by
  have hpw : (l.filter q).Pairwise (fun a b => impact_le a b) :=
    List.pairwise_of_forall_mem_list (by
      intro a ha b hb
      exact hq a b (List.mem_filter.mp ha).2 (List.mem_filter.mp hb).2)
  have hsub : List.Sublist (l.filter q) (l.mergeSort impact_le) :=
    List.sublist_mergeSort impact_le_trans impact_le_total hpw (List.filter_sublist l)
  have hsub2 : List.Sublist (l.filter q) ((l.mergeSort impact_le).filter q) := by
    simpa using hsub.filter q
  have hlen : ((l.mergeSort impact_le).filter q).length = (l.filter q).length :=
    ((List.mergeSort_perm l impact_le).filter q).length_eq
  exact (hsub2.eq_of_length hlen.symm).symm

/-- Scoring does not change a record's provenance fields. -/
theorem strip_score_papers (l : List Paper) (topic : Option String) :
    (score_papers l topic).map strip_computed = l.map strip_computed := by
  induction l with
  | nil => rfl
  | cons p rest ih =>
    have hp : strip_computed
        (let r := calculate_impact_score p topic; { r.2 with impact_score := some r.1 }) =
        strip_computed p := by
      unfold calculate_impact_score strip_computed
      cases p.venue <;> rfl
    simpa [score_papers] using And.intro hp (by simpa [score_papers] using ih)

/-- Venue detection does not change a record's provenance fields. -/
theorem strip_detect_venues (l : List Paper) :
    (detect_venues l).map strip_computed = l.map strip_computed := by
  induction l with
  | nil => rfl
  | cons p rest ih =>
    have hp : strip_computed (detect_venue_pass p) = strip_computed p := by
      unfold detect_venue_pass strip_computed
      by_cases hv : p.venue.isNone <;>
        cases hd : detect_paper_venue p <;> simp [hv, hd]
    simpa [detect_venues] using And.intro hp (by simpa [detect_venues] using ih)

/-- Enrichment does not change a record's provenance fields. -/
theorem strip_enrichFrom (http : String → Option ScholarResponse) :
    ∀ (i : Nat) (l : List Paper),
      (enrichFrom http i l).map strip_computed = l.map strip_computed := by
  intro i l
  induction l generalizing i with
  | nil => rfl
  | cons p rest ih =>
    have hp : ∀ b : Bool,
        strip_computed (if i < 20 ∧ p.arxiv_id ≠ "" then enrichOne http p else p) =
          strip_computed p := by
      intro _
      by_cases hc : i < 20 ∧ p.arxiv_id ≠ "" <;> simp [hc, enrichOne, strip_computed]
    simpa [enrichFrom] using And.intro (hp true) (ih (i + 1))

/-- `removeAllAux` on the empty string. -/
theorem removeAllAux_nil (pat : List Char) (fuel : Nat) :
    removeAllAux pat fuel [] = [] := by
  cases fuel <;> rfl

/-- The fuel of `removeAllAux` is irrelevant once it covers the list. -/
theorem removeAllAux_fuel (pat : List Char) :
    ∀ (f g : Nat) (s : List Char), s.length ≤ f → s.length ≤ g →
      removeAllAux pat f s = removeAllAux pat g s := by
  intro f
  induction f with
  | zero =>
    intro g s hf _
    have hs : s = [] := List.length_eq_zero.mp (Nat.le_zero.mp hf)
    subst hs
    rw [removeAllAux_nil, removeAllAux_nil]
  | succ f ih =>
    intro g s hf hg
    cases s with
    | nil => rw [removeAllAux_nil, removeAllAux_nil]
    | cons c rest =>
      cases g with
      | zero => simp at hg
      | succ g' =>
        simp only [removeAllAux]
        by_cases hif : pat.isPrefixOf (c :: rest) ∧ pat ≠ []
        · rw [if_pos hif, if_pos hif]
          apply ih
          · simp only [List.length_drop]
            simp at hf
            omega
          · simp only [List.length_drop]
            simp at hg
            omega
        · rw [if_neg hif, if_neg hif]
          simp only [List.length_cons] at hf hg
          rw [ih g' rest (by omega) (by omega)]

/-- If the pattern does not occur in the string, nothing is removed. -/
theorem removeAllAux_no_occurrence (pat : List Char) :
    ∀ (fuel : Nat) (s : List Char), s.length ≤ fuel → ¬ pat <:+: s →
      removeAllAux pat fuel s = s := by
  intro fuel
  induction fuel with
  | zero =>
    intro s hf _
    cases s with
    | nil => rfl
    | cons c r => simp at hf
  | succ f ih =>
    intro s hf hni
    cases s with
    | nil => rfl
    | cons c rest =>
      have hnp : ¬ (pat.isPrefixOf (c :: rest) ∧ pat ≠ []) := by
        rintro ⟨hp, -⟩
        exact hni (List.IsPrefix.isInfix ( List.isPrefixOf_iff_prefix.mp hp))
      simp only [removeAllAux]
      rw [if_neg hnp]
      simp only [List.length_cons] at hf
      rw [ih rest (by omega) (fun h => hni (List.infix_cons_iff.mpr (Or.inr h)))]

/-- Removing a non-empty pattern standing at the head of the string steps
past it. -/
theorem removeAllAux_cancel_head (p : Char) (ps : List Char) :
    ∀ (fuel : Nat) (s : List Char), ((p :: ps) ++ s).length ≤ fuel →
      removeAllAux (p :: ps) fuel ((p :: ps) ++ s) =
        removeAllAux (p :: ps) s.length s := by
  intro fuel s hf
  cases fuel with
  | zero => simp at hf
  | succ f =>
    simp only [List.cons_append, removeAllAux]
    have hp : (p :: ps).isPrefixOf ((p :: ps) ++ s) :=
      List.isPrefixOf_iff_prefix.mpr (List.prefix_append _ _)
    rw [if_pos ⟨hp, by simp⟩]
    have hdrop : (ps ++ s).drop ((p :: ps).length - 1) = s := by
      simp [List.drop_left]
    simp only [List.append_eq]
    rw [hdrop]
    apply removeAllAux_fuel
    · simp only [List.cons_append, List.length_cons, List.length_append] at hf
      omega
    · exact Nat.le_refl _

/-- Deleting the unique trailing occurrence of a pattern whose head does
not occur in the carrier. -/
theorem removeAllAux_append_end (p : Char) (ps : List Char) :
    ∀ (s : List Char), p ∉ s → ∀ fuel, (s ++ (p :: ps)).length ≤ fuel →
      removeAllAux (p :: ps) fuel (s ++ (p :: ps)) = s := by
  intro s
  induction s with
  | nil =>
    intro _ fuel hf
    have h1 := removeAllAux_cancel_head p ps fuel [] (by simpa using hf)
    simpa using h1
  | cons c s' ih =>
    intro hmem fuel hf
    cases fuel with
    | zero => simp at hf
    | succ f =>
      have hcne : p ≠ c := fun h => hmem (h ▸ List.mem_cons_self c s')
      simp only [List.cons_append, removeAllAux, List.append_eq]
      have hnp : ¬ ((p :: ps).isPrefixOf (c :: (s' ++ (p :: ps))) ∧ (p :: ps) ≠ []) := by
        rintro ⟨hp, -⟩
        obtain ⟨t, ht⟩ := List.isPrefixOf_iff_prefix.mp hp
        have hpc : p = c := by
          simpa using congrArg (fun l => l.head?) ht
        exact hcne hpc
      rw [if_neg hnp]
      have hmem' : p ∉ s' := fun h => hmem (List.mem_cons_of_mem c h)
      simp only [List.length_cons, List.length_append] at hf
      rw [ih hmem' f (by simp; omega)]

/-- A two-character pattern `[c, d]` with `d ≠ e` does not occur in
`u ++ [c, e]` when `c` does not occur in `u`. -/
theorem not_infix_pair (c d e : Char) (hde : d ≠ e) :
    ∀ u : List Char, c ∉ u → ¬ [c, d] <:+: (u ++ [c, e]) := by
  intro u
  induction u with
  | nil =>
    intro _ h
    rw [List.nil_append] at h
    rcases List.infix_cons_iff.mp h with hpre | hinf
    · obtain ⟨t, ht⟩ := hpre
      simp only [List.cons_append, List.cons.injEq] at ht
      exact hde ht.2.1
    · rcases List.infix_cons_iff.mp hinf with hpre2 | hinf2
      · obtain ⟨t, ht⟩ := hpre2
        simp at ht
      · simp at hinf2
  | cons x u' ih =>
    intro hmem h
    rw [List.cons_append] at h
    rcases List.infix_cons_iff.mp h with hpre | hinf
    · obtain ⟨t, ht⟩ := hpre
      have hcx : c = x := by
        simpa using congrArg (fun l => l.head?) ht
      exact hmem (hcx ▸ List.mem_cons_self x u')
    · exact ih (fun hm => hmem (List.mem_cons_of_mem x hm)) hinf

/-- A pattern starting with a character absent from the string does not
occur in it. -/
theorem not_infix_head (c : Char) (cs s : List Char) (h : c ∉ s) :
    ¬ (c :: cs) <:+: s :=
  fun hinf => h (hinf.subset (List.mem_cons_self c cs))

/-- String-level wrapper: `replace` with an absent pattern is identity. -/
theorem pyRemoveAll_no_occurrence (pat s : String) (h : ¬ pat.data <:+: s.data) :
    pyRemoveAll pat s = s := by
  obtain ⟨d⟩ := s
  show String.mk (removeAllAux pat.data d.length d) = String.mk d
  rw [removeAllAux_no_occurrence pat.data d.length d (Nat.le_refl _) h]

/- ------------------------------------------------------------------ -/
/- Claim theorems.                                                    -/
/- ------------------------------------------------------------------ -/

/-- Claim C9: the daily category is a pure function of the date — it equals
the entry of the fixed category list at index `dayOfYear mod length`, and
two days with the same residue select the same category. -/
theorem daily_category_deterministic :
    (∀ d : Nat, get_daily_arxiv_category d =
      ARXIV_CATEGORIES.getD (d % ARXIV_CATEGORIES.length) "")
    ∧ (∀ d d' : Nat, d % ARXIV_CATEGORIES.length = d' % ARXIV_CATEGORIES.length →
        get_daily_arxiv_category d = get_daily_arxiv_category d') := by
  constructor
  · intro d; rfl
  · intro d d' h
    unfold get_daily_arxiv_category
    rw [h]

/-- Witness for C9 at days 3 and 8 (`3 % 5 = 8 % 5`). -/
theorem daily_category_deterministic_witness :
    3 % ARXIV_CATEGORIES.length = 8 % ARXIV_CATEGORIES.length ∧
      get_daily_arxiv_category 3 = get_daily_arxiv_category 8 :=
  ⟨by decide, daily_category_deterministic.2 3 8 (by decide)⟩

/-- Claim C1: the impact score is exactly
`upvotes*2 + citations*5 + influentialCitations*10 + recency bonus +
title-keyword topic bonus + venue bonus` (recency `+20` at age ≤ 30 days,
`+10` at 31–90 days, `0` otherwise or on an unparsable timestamp; venue
bonus `0` when no venue is set), and the spec's example record
(`upvotes=10`, published 5 days ago, no topic, no venue) scores 40. -/
theorem impact_score_formula :
    (∀ (p : Paper) (topic : Option String),
      (calculate_impact_score p topic).1 =
        p.upvotes * 2 + p.citations * 5 + p.influential_citations * 10
        + (match p.days_old with
           | some days => if days ≤ 30 then 20 else if days ≤ 90 then 10 else 0
           | none => 0)
        + (if topicTruthy topic
              && (pySplit (pyLower (topic.getD ""))).any
                   (fun kw => substrB kw (pyLower p.title))
           then 30 else 0)
        + (match p.venue with
           | some v => (TOP_TIER_VENUES v).bonus
           | none => 0))
    ∧ (calculate_impact_score examplePaper none).1 = 40 := by
  constructor
  · intro p topic
    unfold calculate_impact_score
    cases hd : p.days_old <;> cases hv : p.venue <;>
      cases ht : topicTruthy topic <;>
        simp [hd, hv, ht] <;> split_ifs <;> omega
  · decide

/-- Claim C10: scoring is not read-only — the returned record carries
`venue_bonus := scoreBonus(venue)` whenever a venue is set, and is the
unmodified input record whenever no venue is set. -/
theorem impact_score_writes_venue_bonus :
    ∀ (p : Paper) (topic : Option String),
      (calculate_impact_score p topic).2 =
        (match p.venue with
         | some v => { p with venue_bonus := some (TOP_TIER_VENUES v).bonus }
         | none => p) := by
  intro p topic
  unfold calculate_impact_score
  cases hv : p.venue <;> simp [hv]

/-- Claim C4: for a non-empty topic the score differs from the no-topic
score by exactly `+30` when some whitespace-separated keyword of the
lowercased topic occurs in the lowercased title (and by `0` otherwise), and
the abstract is never consulted by scoring. -/
theorem topic_bonus_title_only :
    ∀ (p : Paper) (t : String), t ≠ "" →
      ((calculate_impact_score p (some t)).1 =
        (calculate_impact_score p none).1 +
          (if (pySplit (pyLower t)).any (fun kw => substrB kw (pyLower p.title))
           then 30 else 0))
      ∧ (∀ a : String,
          (calculate_impact_score { p with abstract := a } (some t)).1 =
            (calculate_impact_score p (some t)).1) := by
  intro p t ht
  have htt : topicTruthy (some t) = true := by
    simpa [topicTruthy] using ht
  constructor
  · unfold calculate_impact_score
    cases hd : p.days_old <;> cases hv : p.venue <;>
      cases hany : (pySplit (pyLower t)).any (fun kw => substrB kw (pyLower p.title)) <;>
        simp [hd, hv, hany, htt, topicTruthy, ht] <;> omega
  · intro a
    unfold calculate_impact_score
    cases hd : p.days_old <;> cases hv : p.venue <;> simp [hd, hv]

/-- Witness for C4: topic `"agentic ai"`, title `"Agentic AI Systems"` —
both keywords match the title, the bonus is still exactly `+30`. -/
theorem topic_bonus_title_only_witness :
    ("agentic ai" ≠ "") ∧
      (calculate_impact_score pAgentic (some "agentic ai")).1 =
        (calculate_impact_score pAgentic none).1 +
          (if (pySplit (pyLower "agentic ai")).any
                (fun kw => substrB kw (pyLower pAgentic.title))
           then 30 else 0) :=
  ⟨by decide, (topic_bonus_title_only pAgentic "agentic ai" (by decide)).1⟩

/-- Claim C5: the topic filter is the identity on the empty topic, and for
a non-empty topic keeps exactly (in original order) the records whose
lowercased title-plus-abstract text contains at least one of the topic's
whitespace-separated lowercase keywords. -/
theorem filter_by_topic_spec :
    ∀ (papers : List Paper) (t : String),
      filter_papers_by_topic papers "" = papers
      ∧ (t ≠ "" →
          filter_papers_by_topic papers t =
            papers.filter (fun p =>
              (pySplit (pyLower t)).any (fun kw => substrB kw (searchable_text p)))) := by
  intro papers t
  constructor
  · simp [filter_papers_by_topic]
  · intro ht
    unfold filter_papers_by_topic
    rw [if_neg ht]
    simpa using foldl_append_filter
      (fun p => (pySplit (pyLower t)).any fun kw => substrB kw (searchable_text p))
      papers []

/-- Witness for C5 at a concrete list and the topic `"hello"`. -/
theorem filter_by_topic_spec_witness :
    filter_papers_by_topic [pHello, pAgentic] "" = [pHello, pAgentic] ∧
      filter_papers_by_topic [pHello, pAgentic] "hello" =
        [pHello, pAgentic].filter (fun p =>
          (pySplit (pyLower "hello")).any (fun kw => substrB kw (searchable_text p))) :=
  ⟨(filter_by_topic_spec [pHello, pAgentic] "hello").1,
   (filter_by_topic_spec [pHello, pAgentic] "hello").2 (by decide)⟩

/-- Claim C7: enrichment touches at most the first 20 records of the
post-filter candidate set — every record at a later position and every
record with an empty identifier passes through unchanged — and even on an
enriched record only the two citation fields can change. -/
theorem enrichment_cap_and_frame (http : String → Option ScholarResponse)
    (papers : List Paper) :
    (enrichFrom http 0 papers).length = papers.length
    ∧ (∀ i : Nat, 20 ≤ i → (enrichFrom http 0 papers)[i]? = papers[i]?)
    ∧ (∀ i : Nat, ∀ p : Paper, papers[i]? = some p → p.arxiv_id = "" →
        (enrichFrom http 0 papers)[i]? = some p)
    ∧ (∀ i : Nat, ∀ p : Paper, papers[i]? = some p → ∃ c ic : Int,
        (enrichFrom http 0 papers)[i]? =
          some { p with citations := c, influential_citations := ic }) := by
  refine ⟨enrichFrom_length http 0 papers, ?_, ?_, ?_⟩
  · intro i hi
    rw [enrichFrom_getElem?]
    cases hp : papers[i]? with
    | none => rfl
    | some p =>
      have hni : ¬ (0 + i < 20 ∧ p.arxiv_id ≠ "") := by
        rintro ⟨h1, -⟩; omega
      rw [Option.map_some', if_neg hni]
  · intro i p hp hid
    rw [enrichFrom_getElem?, hp, Option.map_some', if_neg]
    rintro ⟨-, h2⟩
    exact h2 hid
  · intro i p hp
    rw [enrichFrom_getElem?, hp, Option.map_some']
    by_cases hc : 0 + i < 20 ∧ p.arxiv_id ≠ ""
    · exact ⟨(get_semantic_scholar_data http p.arxiv_id).citations,
        (get_semantic_scholar_data http p.arxiv_id).influential_citations,
        by rw [if_pos hc]; rfl⟩
    · exact ⟨p.citations, p.influential_citations, by rw [if_neg hc]⟩

/-- Witness for C7 on a 21-record list with the exception oracle: the
record at position 20 (the 21st) is untouched, records with empty
identifiers are untouched, and any record changes at most its citation
fields. -/
theorem enrichment_cap_and_frame_witness :
    (enrichFrom httpNone 0 (List.replicate 21 examplePaper)).length =
        (List.replicate 21 examplePaper).length
    ∧ (enrichFrom httpNone 0 (List.replicate 21 examplePaper))[20]? =
        (List.replicate 21 examplePaper)[20]?
    ∧ (enrichFrom httpNone 0 (List.replicate 21 examplePaper))[0]? = some examplePaper
    ∧ ∃ c ic : Int,
        (enrichFrom httpNone 0 (List.replicate 21 examplePaper))[5]? =
          some { examplePaper with citations := c, influential_citations := ic } :=
  ⟨(enrichment_cap_and_frame httpNone (List.replicate 21 examplePaper)).1,
   (enrichment_cap_and_frame httpNone (List.replicate 21 examplePaper)).2.1 20 (by decide),
   (enrichment_cap_and_frame httpNone (List.replicate 21 examplePaper)).2.2.1 0
     examplePaper (by decide) (by decide),
   (enrichment_cap_and_frame httpNone (List.replicate 21 examplePaper)).2.2.2 5
     examplePaper (by decide)⟩

/-- Claim C6: the venue-detection pass leaves records with an assigned
venue unchanged; scoring, enrichment, sorting and filtering never rewrite
a venue either (they alter other fields, permute, or select); and for a
record without a venue, detection returns the first venue of the table
iteration order whose lowercase display name occurs in the lowercased
title+abstract, or none when no display name occurs. -/
theorem venue_detection_spec :
    (∀ p : Paper, ∀ v : Venue, p.venue = some v → detect_venue_pass p = p)
    ∧ (∀ (p : Paper) (topic : Option String),
        ((calculate_impact_score p topic).2).venue = p.venue)
    ∧ (∀ (http : String → Option ScholarResponse) (start : Nat)
        (papers : List Paper) (j : Nat),
        ((enrichFrom http start papers)[j]?).map Paper.venue =
          (papers[j]?).map Paper.venue)
    ∧ (∀ papers : List Paper, List.Perm (sort_by_impact papers) papers)
    ∧ (∀ (papers : List Paper) (t : String),
        List.Sublist (filter_papers_by_topic papers t) papers)
    ∧ (∀ p : Paper, p.venue = none → ∀ v : Venue, detect_paper_venue p = some v →
        venue_matches v p = true ∧ ∃ k : Nat, VENUE_ORDER[k]? = some v ∧
          ∀ j : Nat, j < k → ∀ w : Venue, VENUE_ORDER[j]? = some w →
            venue_matches w p = false)
    ∧ (∀ p : Paper, detect_paper_venue p = none →
        ∀ v : Venue, venue_matches v p = false) := by
  refine ⟨?_, ?_, ?_, ?_, ?_, ?_, ?_⟩
  · intro p v hv
    simp [detect_venue_pass, hv]
  · intro p topic
    unfold calculate_impact_score
    cases hv : p.venue <;> simp [hv]
  · intro http start papers j
    rw [enrichFrom_getElem?]
    cases hp : papers[j]? with
    | none => rfl
    | some p =>
      by_cases hc : start + j < 20 ∧ p.arxiv_id ≠ "" <;> simp [hc, enrichOne]
  · intro papers
    exact List.mergeSort_perm papers _
  · intro papers t
    unfold filter_papers_by_topic
    by_cases ht : t = ""
    · simp [ht]
    · rw [if_neg ht, foldl_append_filter]
      simp only [List.nil_append]
      exact List.filter_sublist papers
  · intro p _ v hv
    obtain ⟨hq, k, hk, hbefore⟩ :=
      find?_first_getElem? (fun v => venue_matches v p) VENUE_ORDER v hv
    exact ⟨hq, k, hk, hbefore⟩
  · intro p hnone v
    have := List.find?_eq_none.mp hnone
    simpa using this v (mem_VENUE_ORDER v)

/-- Witness for C6: a record with venue `acl` is untouched by the pass; on
the record titled `"Accepted at NeurIPS 2025"` detection returns `neurips`
(the first matching table entry); on the record titled `"hello"` detection
returns none, and indeed e.g. `acl` does not match it. -/
theorem venue_detection_spec_witness :
    detect_venue_pass pVenued = pVenued
    ∧ (venue_matches Venue.neurips pNeurips = true ∧ ∃ k : Nat,
        VENUE_ORDER[k]? = some Venue.neurips ∧
          ∀ j : Nat, j < k → ∀ w : Venue, VENUE_ORDER[j]? = some w →
            venue_matches w pNeurips = false)
    ∧ venue_matches Venue.acl pHello = false :=
  ⟨venue_detection_spec.1 pVenued Venue.acl (by decide),
   venue_detection_spec.2.2.2.2.2.1 pNeurips (by decide) Venue.neurips (by decide),
   venue_detection_spec.2.2.2.2.2.2 pHello (by decide) Venue.acl⟩

/-- Claim C2: the ranked output has length at most `limit`, is sorted in
non-increasing impact score, and the sort is stable — restricted to any
fixed score, the output is a sub-sequence of the pre-sort scored list in
its original order, and that list itself traverses the merged input in
order (it only drops filtered-out records and rewrites computed fields). -/
theorem rank_truncated_sorted_stable (http : String → Option ScholarResponse)
    (hf_papers arxiv_papers : List Paper) (topic : Option String)
    (num_papers : Nat) :
    (fetch_high_impact_papers_core http hf_papers arxiv_papers topic num_papers).length ≤ num_papers
    ∧ List.Pairwise (fun a b => score_key b ≤ score_key a)
        (fetch_high_impact_papers_core http hf_papers arxiv_papers topic num_papers)
    ∧ (∀ s : Int,
        List.Sublist
          ((fetch_high_impact_papers_core http hf_papers arxiv_papers topic num_papers).filter
            (fun p => decide (score_key p = s)))
          ((pre_rank http hf_papers arxiv_papers topic).filter
            (fun p => decide (score_key p = s))))
    ∧ List.Sublist ((pre_rank http hf_papers arxiv_papers topic).map strip_computed)
        ((hf_papers ++ arxiv_papers).map strip_computed) := by
  have hcore : fetch_high_impact_papers_core http hf_papers arxiv_papers topic num_papers =
      (sort_by_impact (pre_rank http hf_papers arxiv_papers topic)).take num_papers := rfl
  refine ⟨?_, ?_, ?_, ?_⟩
  · rw [hcore, List.length_take]
    exact Nat.min_le_left _ _
  · rw [hcore]
    have hs : List.Pairwise (fun a b => impact_le a b)
        ((pre_rank http hf_papers arxiv_papers topic).mergeSort impact_le) :=
      List.sorted_mergeSort impact_le_trans impact_le_total _
    exact (List.Pairwise.sublist (List.take_sublist _ _) hs).imp
      (fun h => by simpa [impact_le] using h)
  · intro s
    rw [hcore]
    have hstable := mergeSort_stable_filter (fun p => decide (score_key p = s))
      (by
        intro a b ha hb
        simp only [decide_eq_true_eq] at ha hb
        simp [impact_le, ha, hb])
      (pre_rank http hf_papers arxiv_papers topic)
    have h1 := (List.take_sublist num_papers
      (sort_by_impact (pre_rank http hf_papers arxiv_papers topic))).filter
        (fun p => decide (score_key p = s))
    unfold sort_by_impact at h1
    rwa [hstable] at h1
  · simp only [pre_rank]
    rw [strip_score_papers, strip_detect_venues, strip_enrichFrom]
    by_cases ht : topicTruthy topic = true
    · simp only [ht, if_true]
      have hsub : List.Sublist
          (filter_papers_by_topic (hf_papers ++ arxiv_papers) (topic.getD ""))
          (hf_papers ++ arxiv_papers) := by
        unfold filter_papers_by_topic
        by_cases h0 : (topic.getD "") = ""
        · simp [h0]
        · rw [if_neg h0, foldl_append_filter]
          simpa using List.filter_sublist (hf_papers ++ arxiv_papers)
      exact hsub.map strip_computed
    · simp only [ht]
      simp

/-- Claim C3 counterexample: with the trending feed empty, an arXiv result
not matching the configured topic `"zzz"`, and the pipeline therefore
yielding zero results, `get_papers` returns the arXiv fetch — not the
first `limit` entries of the trending feed, which are empty here. -/
theorem get_papers_fallback_counterexample :
    get_papers httpNone (some []) (some [pHello]) (some "zzz") 1 = [pHello]
    ∧ fetch_huggingface_papers (some []) 1 = []
    ∧ get_papers httpNone (some []) (some [pHello]) (some "zzz") 1 ≠
        fetch_huggingface_papers (some []) 1 := by
  have hpre : pre_rank httpNone (fetch_huggingface_papers (some []) (1 * 3))
      (fetch_arxiv_papers (some [pHello]) (1 * 2)) (some "zzz") = [] := by decide
  have hpipe : fetch_high_impact_papers httpNone (some []) (some [pHello]) (some "zzz") 1 = [] := by
    have hre : fetch_high_impact_papers httpNone (some []) (some [pHello]) (some "zzz") 1 =
        (sort_by_impact (pre_rank httpNone (fetch_huggingface_papers (some []) (1 * 3))
          (fetch_arxiv_papers (some [pHello]) (1 * 2)) (some "zzz"))).take 1 := rfl
    rw [hre, hpre]
    simp [sort_by_impact]
  refine ⟨?_, rfl, ?_⟩
  · simp only [get_papers, hpipe]
    decide
  · simp only [get_papers, hpipe]
    decide

/-- Claim C3 amended: when the pipeline yields zero results, `get_papers`
falls back to the trending feed only for an absent or whitespace-only
topic; for any other topic it falls back to a fresh topic search on the
other source (first `limit` entries, venue-tagged, unscored). -/
theorem get_papers_fallback_amended (http : String → Option ScholarResponse)
    (feed search : Option (List Paper)) (topic : Option String) (num_papers : Nat)
    (h : fetch_high_impact_papers http feed search topic num_papers = []) :
    get_papers http feed search topic num_papers =
      if ¬ topicTruthy topic = true ∨ pyStrip (topic.getD "") = "" then
        fetch_huggingface_papers feed num_papers
      else
        fetch_arxiv_papers search num_papers := by
  simp only [get_papers, h]
  simp

/-- Witness for the amended C3 at a concrete empty environment. -/
theorem get_papers_fallback_amended_witness :
    get_papers httpNone (some []) (some []) none 2 =
      if ¬ topicTruthy none = true ∨ pyStrip ((none : Option String).getD "") = "" then
        fetch_huggingface_papers (some []) 2
      else
        fetch_arxiv_papers (some []) 2 :=
  get_papers_fallback_amended httpNone (some []) (some []) none 2 (by
    have hpre : pre_rank httpNone (fetch_huggingface_papers (some []) 2)
        (fetch_arxiv_papers (some []) (2 * 2)) none = [] := by decide
    have hre : fetch_high_impact_papers httpNone (some []) (some []) none 2 =
        (sort_by_impact (pre_rank httpNone (fetch_huggingface_papers (some []) 2)
          (fetch_arxiv_papers (some []) (2 * 2)) none)).take 2 := rfl
    rw [hre, hpre]
    simp [sort_by_impact])

/-- Claim C8 counterexample: on the identifier `"2401.01234v12"` the code's
normalization deletes the internal `"v1"` occurrence and produces
`"2401.012342"`, while removing only a namespace prefix and a trailing
`v1`/`v2`/`v3` suffix (the claim's description) would leave the identifier
unchanged. -/
theorem scholar_clean_id_counterexample :
    cleanArxivId "2401.01234v12" = "2401.012342"
    ∧ spec_clean_id "2401.01234v12" = "2401.01234v12"
    ∧ cleanArxivId "2401.01234v12" ≠ spec_clean_id "2401.01234v12" :=
  ⟨by decide, by decide, by decide⟩

/-- Claim C8 amended: the identifier sent to the citation service is the
input with every occurrence of `"arXiv:"`, then `"v1"`, `"v2"`, `"v3"`
removed anywhere in the string (left-to-right, non-overlapping) — which on
a well-formed identifier `arXiv:<digits-and-dots>[vK]` coincides with
removing the namespace prefix and stripping the version suffix — and on a
raised exception or any non-200 response the enrichment returns zero
counts without raising. -/
theorem scholar_enrichment_amended :
    (∀ (http : String → Option ScholarResponse) (arxiv_id : String),
        http (SEMANTIC_SCHOLAR_URL_BASE ++ cleanArxivId arxiv_id) = none →
        get_semantic_scholar_data http arxiv_id = ⟨0, 0⟩)
    ∧ (∀ (http : String → Option ScholarResponse) (arxiv_id : String)
        (r : ScholarResponse),
        http (SEMANTIC_SCHOLAR_URL_BASE ++ cleanArxivId arxiv_id) = some r →
        r.status_code ≠ 200 →
        get_semantic_scholar_data http arxiv_id = ⟨0, 0⟩)
    ∧ (∀ base : String, (∀ c ∈ base.data, c.isDigit = true ∨ c = '.') →
        cleanArxivId ("arXiv:" ++ base) = base
        ∧ cleanArxivId ("arXiv:" ++ base ++ "v1") = base
        ∧ cleanArxivId ("arXiv:" ++ base ++ "v2") = base
        ∧ cleanArxivId ("arXiv:" ++ base ++ "v3") = base)
    ∧ cleanArxivId "2401.01234v12" = "2401.012342" := by
  refine ⟨?_, ?_, ?_, by decide⟩
  · intro http arxiv_id h
    simp only [get_semantic_scholar_data, h]
  · intro http arxiv_id r h hr
    simp only [get_semantic_scholar_data, h]
    rw [if_neg hr]
  · intro base hB
    have hv : 'v' ∉ base.data := by
      intro hm
      rcases hB 'v' hm with h | h
      · exact absurd h (by decide)
      · exact absurd h (by decide)
    have ha : 'a' ∉ base.data := by
      intro hm
      rcases hB 'a' hm with h | h
      · exact absurd h (by decide)
      · exact absurd h (by decide)
    obtain ⟨B⟩ := base
    have hstep1 : ∀ tail : List Char, 'a' ∉ tail →
        pyRemoveAll "arXiv:" ⟨"arXiv:".data ++ tail⟩ = ⟨tail⟩ := by
      intro tail hna
      show String.mk (removeAllAux "arXiv:".data ("arXiv:".data ++ tail).length
        ("arXiv:".data ++ tail)) = String.mk tail
      congr 1
      have h1 : removeAllAux "arXiv:".data ("arXiv:".data ++ tail).length
          ("arXiv:".data ++ tail) = removeAllAux "arXiv:".data tail.length tail :=
        removeAllAux_cancel_head 'a' "rXiv:".data (("arXiv:".data ++ tail).length)
          tail (Nat.le_refl _)
      rw [h1]
      exact removeAllAux_no_occurrence "arXiv:".data tail.length tail (Nat.le_refl _)
        (not_infix_head 'a' "rXiv:".data tail hna)
    have hnov : ∀ (d : Char) (tail : List Char), 'v' ∉ tail →
        pyRemoveAll ⟨['v', d]⟩ ⟨tail⟩ = ⟨tail⟩ := by
      intro d tail hnv
      exact pyRemoveAll_no_occurrence ⟨['v', d]⟩ ⟨tail⟩ (not_infix_head 'v' [d] tail hnv)
    have hend : ∀ (d : Char), pyRemoveAll ⟨['v', d]⟩ ⟨B ++ ['v', d]⟩ = ⟨B⟩ := by
      intro d
      show String.mk (removeAllAux ['v', d] (B ++ ['v', d]).length (B ++ ['v', d])) =
        String.mk B
      congr 1
      exact removeAllAux_append_end 'v' [d] B hv _ (Nat.le_refl _)
    have hpair : ∀ (d e : Char), d ≠ e →
        pyRemoveAll ⟨['v', d]⟩ ⟨B ++ ['v', e]⟩ = ⟨B ++ ['v', e]⟩ := by
      intro d e hde
      exact pyRemoveAll_no_occurrence ⟨['v', d]⟩ ⟨B ++ ['v', e]⟩
        (not_infix_pair 'v' d e hde B hv)
    have hamem : ∀ (d : Char), 'a' ≠ d → 'a' ∉ B ++ ['v', d] := by
      intro d hd hm
      rcases List.mem_append.mp hm with hm | hm
      · exact ha hm
      · simp only [List.mem_cons, List.not_mem_nil, or_false] at hm
        rcases hm with hm | hm
        · exact absurd hm (by decide)
        · exact hd hm
    refine ⟨?_, ?_, ?_, ?_⟩
    · simp only [cleanArxivId]
      have h1 : pyRemoveAll "arXiv:" ("arXiv:" ++ String.mk B) = String.mk B :=
        hstep1 B ha
      rw [h1]
      have h2 : pyRemoveAll "v1" (String.mk B) = String.mk B := hnov '1' B hv
      rw [h2]
      have h3 : pyRemoveAll "v2" (String.mk B) = String.mk B := hnov '2' B hv
      rw [h3]
      exact hnov '3' B hv
    · simp only [cleanArxivId]
      have h1 : pyRemoveAll "arXiv:" ("arXiv:" ++ String.mk B ++ "v1") =
          String.mk (B ++ ['v', '1']) := hstep1 (B ++ ['v', '1']) (hamem '1' (by decide))
      rw [h1]
      have h2 : pyRemoveAll "v1" (String.mk (B ++ ['v', '1'])) = String.mk B :=
        hend '1'
      rw [h2]
      have h3 : pyRemoveAll "v2" (String.mk B) = String.mk B := hnov '2' B hv
      rw [h3]
      exact hnov '3' B hv
    · simp only [cleanArxivId]
      have h1 : pyRemoveAll "arXiv:" ("arXiv:" ++ String.mk B ++ "v2") =
          String.mk (B ++ ['v', '2']) := hstep1 (B ++ ['v', '2']) (hamem '2' (by decide))
      rw [h1]
      have h2 : pyRemoveAll "v1" (String.mk (B ++ ['v', '2'])) =
          String.mk (B ++ ['v', '2']) := hpair '1' '2' (by decide)
      rw [h2]
      have h3 : pyRemoveAll "v2" (String.mk (B ++ ['v', '2'])) = String.mk B :=
        hend '2'
      rw [h3]
      exact hnov '3' B hv
    · simp only [cleanArxivId]
      have h1 : pyRemoveAll "arXiv:" ("arXiv:" ++ String.mk B ++ "v3") =
          String.mk (B ++ ['v', '3']) := hstep1 (B ++ ['v', '3']) (hamem '3' (by decide))
      rw [h1]
      have h2 : pyRemoveAll "v1" (String.mk (B ++ ['v', '3'])) =
          String.mk (B ++ ['v', '3']) := hpair '1' '3' (by decide)
      rw [h2]
      have h3 : pyRemoveAll "v2" (String.mk (B ++ ['v', '3'])) =
          String.mk (B ++ ['v', '3']) := hpair '2' '3' (by decide)
      rw [h3]
      exact hend '3'

/-- Witness for the amended C8: a raising oracle yields zero counts, and
the well-formed identifier `arXiv:2401.01234v2` is normalized to
`2401.01234`. -/
theorem scholar_enrichment_amended_witness :
    get_semantic_scholar_data httpNone "arXiv:2401.01234v2" = ⟨0, 0⟩
    ∧ cleanArxivId ("arXiv:" ++ "2401.01234" ++ "v2") = "2401.01234" :=
  ⟨scholar_enrichment_amended.1 httpNone "arXiv:2401.01234v2" rfl,
   (scholar_enrichment_amended.2.2.1 "2401.01234" (by decide)).2.2.1⟩
